import Mathlib

/-!
Verification of the bounded retry controller in `agent.py`
(`BankStatementParserAgent`): the plan → generate → test → fix loop,
its attempt bookkeeping, the code-extraction helper `_extract_code`,
the test-result interpretation of `_run_tests_node`, the prompt
construction of `_generate_code_node`, and the CLI entry surface of
`main`.

Strings are modelled as `List Char`.  The language-model service and
the external test process are opaque collaborators; their outcomes are
supplied by an oracle (`Env`) indexed by the call number, so every
theorem about the loop quantifies over all possible outcome sequences.
-/

set_option maxHeartbeats 1000000

namespace AgentSpec

/-- ASCII whitespace stripped by Python's `str.strip()`:
space, tab, newline, carriage return, vertical tab, form feed. -/
def pyIsSpace (c : Char) : Bool :=
  c = ' ' || c = '\t' || c = '\n' || c = '\r' || c = '\x0b' || c = '\x0c'

/-- Python `text.strip()`: remove leading and trailing whitespace. -/
def pytrim (l : List Char) : List Char :=
  ((l.dropWhile pyIsSpace).reverse.dropWhile pyIsSpace).reverse

/-- Python's substring test `sep in text`. -/
def containsSub (s : List Char) : List Char → Bool
  | [] => s.isEmpty
  | c :: cs => s.isPrefixOf (c :: cs) || containsSub s cs

/-- Split `t` at the leftmost occurrence of `s`: the part before the
occurrence and the part after it (`none` when `s` does not occur).
Only used with non-empty `s`. -/
def splitFirst (s : List Char) : List Char → Option (List Char × List Char)
  | [] => none
  | c :: cs =>
    if s.isPrefixOf (c :: cs) then some ([], (c :: cs).drop s.length)
    else
      match splitFirst s cs with
      | some (pre, post) => some (c :: pre, post)
      | none => none

/-- The part of `t` strictly before the first occurrence of `s`
(all of `t` when `s` does not occur in `t`). -/
def firstChunk (s t : List Char) : List Char :=
  match splitFirst s t with
  | some (pre, _) => pre
  | none => t

/-- Fuelled core of Python `text.split(sep)` for a non-empty separator:
repeatedly cut at the leftmost occurrence, scanning left to right over
non-overlapping occurrences, exactly as CPython does. -/
def pysplitF (s : List Char) : Nat → List Char → List (List Char)
  | 0, t => [t]
  | n + 1, t =>
    match splitFirst s t with
    | some (pre, post) => pre :: pysplitF s n post
    | none => [t]

/-- Python `text.split(sep)` for a non-empty `sep`.  Fuel `t.length + 1`
always suffices because every found occurrence consumes at least one
character of the remaining text (proved below in `pysplitF_big`). -/
def pysplit (s t : List Char) : List (List Char) :=
  pysplitF s (t.length + 1) t

/-- The opening fence tag scanned for by `_extract_code`. -/
def fencePy : List Char := "```python".data

/-- A bare fence. -/
def fence : List Char := "```".data

/-- `BankStatementParserAgent._extract_code` (src/agent.py lines 164-168):

    if "```python" in text:
        return text.split("```python")[1].split("```")[0].strip()
    return text.strip() if text else None

`text.split(sep)[1]` is the chunk between the first and second
non-overlapping occurrence of `sep` (to the end of text when the first
occurrence is the only one); `.split(sep)[0]` is the chunk before the
first occurrence.  The final line returns `none` exactly when `text`
is empty (Python falsiness of `""`). -/
def extract_code (text : List Char) : Option (List Char) :=
  if containsSub fencePy text then
    some (pytrim ((pysplit fence ((pysplit fencePy text).getD 1 [])).getD 0 []))
  else if text = [] then none else some (pytrim text)

/-- Modelled from the spec: the extraction contract in its own words
(§4.2 / §8 of spec.md, the sentences behind claim C2).  "If the text
contains a fenced code block tagged ```python, return the content
between the first such fence and the next fence (trimmed); otherwise,
if the text is non-empty, return it trimmed; otherwise no code."  The
"next fence" is the first occurrence of ``` after the opening fence. -/
def extractSpec (text : List Char) : Option (List Char) :=
  match splitFirst fencePy text with
  | some (_, post) => some (pytrim (firstChunk fence post))
  | none => if text = [] then none else some (pytrim text)

/-- The input on which `_extract_code` and the spec's extraction sentence
disagree: an opening fence, one stray backtick, then a second tagged fence. -/
def cexText : List Char := fencePy ++ '`' :: fencePy

/-- Python truthiness of an `Optional[str]` value: `None` and `""` are falsy. -/
def codeTruthy : Option (List Char) → Bool
  | none => false
  | some c => !c.isEmpty

/-- `parser_path` as computed in `run` (line 178), relative to `Path.cwd()`
(the cwd prefix is a run-wide constant and is elided). -/
def parserPathOf (target : List Char) : List Char :=
  "custom_parsers/".data ++ target ++ "_parser.py".data

/-- `csv_path` as computed in `run` (line 179), relative to `Path.cwd()`. -/
def csvPathOf (target : List Char) : List Char :=
  "data/".data ++ target ++ "/".data ++ target ++ "_sample.csv".data

/-- The `AgentState` TypedDict (src/agent.py lines 28-41). -/
structure AgentState where
  messages : List (List Char)
  target_bank : List Char
  parser_path : List Char
  csv_path : List Char
  current_code : Option (List Char)
  test_results : Option (List Char)
  attempt_count : Nat
  max_attempts : Nat
  task_complete : Bool
deriving DecidableEq

/-- Outcome of one `model.generate_content(prompt)` call together with the
`response.text` access (lines 114-115): the free-form reply text, or a raised
exception rendered as its message text. -/
inductive GenOutcome where
  | exc (msg : List Char)
  | resp (text : List Char)
deriving DecidableEq

/-- Outcome of one `subprocess.run([... pytest ...], timeout=60)` call
(lines 134-137): a completed process with its exit code and captured streams,
or a raised exception (`TimeoutExpired` after 60 seconds, a spawn error, ...)
rendered as its message text. -/
inductive TestOutcome where
  | completed (returncode : Int) (stdout stderr : List Char)
  | exc (msg : List Char)
deriving DecidableEq

/-- The external collaborators of one run: the outcome of the i-th generation
call, the outcome of the i-th test run, and the column names enumerated from
the reference CSV (`pd.read_csv(csv_path).columns.tolist()`, line 96). -/
structure Env where
  genOutcomes : Nat → GenOutcome
  testOutcomes : Nat → TestOutcome
  csvCols : List (List Char)

/-- Message appended by `_plan_node` (line 91). -/
def planMessage (t : List Char) : List Char :=
  "Plan a Python parser for ".data ++ t ++ ".".data

/-- Feedback set on a generation-service exception (line 127). -/
def genExcMessage (e : List Char) : List Char :=
  "An exception occurred during code generation: ".data ++ e

/-- Feedback set when no truthy code was extracted (line 124). -/
def noCodeMessage : List Char := "Failed to generate valid Python code.".data

/-- Feedback on a zero exit code (line 139). -/
def passMessage : List Char := "All tests passed successfully.".data

/-- Feedback on a non-zero exit code (line 142): a fixed-format diagnostic
embedding the captured stdout followed by the captured stderr. -/
def failMessage (out err : List Char) : List Char :=
  "Tests failed.\nSTDOUT:\n".data ++ out ++ "\nSTDERR:\n".data ++ err

/-- Feedback on a test-process exception (line 145). -/
def testExcMessage (e : List Char) : List Char :=
  "An unexpected error occurred while running tests: ".data ++ e

/-- The rendering of `state.get('test_results', 'This is the first attempt.')`
inside the prompt f-string (line 108).  `run` seeds the key `test_results`
with the value `None` (line 184), and `dict.get` returns the stored value
whenever the key is present — so on the first attempt the f-string renders the
stored `None` as the four characters `None`; the declared default
`'This is the first attempt.'` is unreachable. -/
def feedbackText : Option (List Char) → List Char
  | some f => f
  | none => "None".data

/-- Literal prompt text before the interpolated target (lines 98-99). -/
def promptPre : List Char :=
  "\n        You are an expert Python developer. Generate a parser for '".data

/-- Literal prompt text between the interpolated target and the interpolated
feedback (lines 99-108), containing the fixed hardcoded required schema. -/
def promptMid : List Char :=
  ("' bank statements.\n\n        **CRITICAL INSTRUCTIONS:**\n        1.  The PDF data has exactly 5 columns. Your parser must extract and handle exactly 5 columns.\n        2.  The required output DataFrame columns are STRICTLY: `['Date', 'Description', 'Debit Amt', 'Credit Amt', 'Balance']`.\n        3.  **DO NOT HALLUCINATE OR ADD EXTRA COLUMNS.** Specifically, do not add a 'Chq./Ref.No.' column. This is the most common cause of failure.\n        4.  Use `pdfplumber` and `page.extract_tables()`.\n        5.  Create the DataFrame from a list of dictionaries to ensure column mapping is correct.\n\n        **Feedback from previous attempt:** ").data

/-- Literal prompt text after the interpolated feedback (lines 108-111). -/
def promptPost : List Char :=
  "\n\n        Provide only the complete, runnable Python code.\n        ".data

/-- The prompt f-string of `_generate_code_node` (lines 98-111).  The enumerated
`csvCols` (the `csv_schema` variable of line 96) is a parameter because the
source computes it in scope, but the f-string interpolates only
`state['target_bank']` and `state.get('test_results', ...)` — `csv_schema`
does not occur in the prompt, so the result does not depend on `csvCols`. -/
def mkPrompt (target : List Char) (csvCols : List (List Char))
    (feedback : Option (List Char)) : List Char :=
  promptPre ++ target ++ promptMid ++ feedbackText feedback ++ promptPost

/-- `_plan_node` (lines 89-92): appends the planning message, changes nothing
else. -/
def plan_node (s : AgentState) : AgentState :=
  { s with messages := s.messages ++ [planMessage s.target_bank] }

/-- `_generate_code_node` (lines 94-129).  The node builds
`mkPrompt s.target_bank csvCols s.test_results` and sends it to the service;
the service's behaviour is the oracle outcome `g`.  On a reply, the extracted
code is written to the artifact file iff it is truthy; on an exception or a
falsy extraction the artifact is untouched, `current_code` is cleared and the
failure is recorded in `test_results`.  Returns the updated state together
with the artifact file's content. -/
def generate_code_node (g : GenOutcome) (csvCols : List (List Char))
    (s : AgentState) (artifact : Option (List Char)) :
    AgentState × Option (List Char) :=
  match g with
  | .exc e =>
    ({ s with current_code := none, test_results := some (genExcMessage e) }, artifact)
  | .resp text =>
    let code := extract_code text
    if codeTruthy code then ({ s with current_code := code }, code)
    else ({ s with current_code := none, test_results := some noCodeMessage }, artifact)

/-- `_run_tests_node` (lines 131-147): zero exit code sets success feedback and
`task_complete := true`; non-zero exit code sets the stdout/stderr diagnostic
and `task_complete := false`; an exception (timeout, spawn error) is caught
and treated as a failure. -/
def run_tests_node (t : TestOutcome) (s : AgentState) : AgentState :=
  match t with
  | .completed rc out err =>
    if rc = 0 then { s with test_results := some passMessage, task_complete := true }
    else { s with test_results := some (failMessage out err), task_complete := false }
  | .exc e =>
    { s with test_results := some (testExcMessage e), task_complete := false }

/-- `_self_fix_node` (lines 149-152): its sole effect is `attempt_count += 1`. -/
def self_fix_node (s : AgentState) : AgentState :=
  { s with attempt_count := s.attempt_count + 1 }

/-- `_should_test` (lines 156-157): route on the truthiness of
`state.get('current_code')`. -/
def should_test (s : AgentState) : String :=
  if codeTruthy s.current_code then "test" else "end"

/-- `_should_continue_fixing` (lines 159-162). -/
def should_continue_fixing (s : AgentState) : String :=
  if s.task_complete then "end"
  else if s.attempt_count < s.max_attempts then "fix" else "end"

/-- The nodes of the LangGraph workflow built in `_build_graph`
(lines 73-85), plus the `END` sentinel. -/
inductive Node where
  | plan
  | generate
  | test
  | fix
  | terminated
deriving DecidableEq

/-- One point of the running workflow: the node about to execute, the agent
state, the artifact file's content (the single filesystem cell the loop
writes), and how many generation-service calls and test runs happened. -/
structure Machine where
  node : Node
  st : AgentState
  artifact : Option (List Char)
  genCalls : Nat
  testCalls : Nat
deriving DecidableEq

/-- One node execution followed by the edge chosen in `_build_graph`
(lines 79-83): `plan → generate_code` unconditionally;
`generate_code → run_tests / END` via `_should_test`;
`run_tests → self_fix / END` via `_should_continue_fixing`;
`self_fix → generate_code` unconditionally.  `terminated` is absorbing. -/
def step (env : Env) (m : Machine) : Machine :=
  match m.node with
  | .plan => { m with node := .generate, st := plan_node m.st }
  | .generate =>
    let r := generate_code_node (env.genOutcomes m.genCalls) env.csvCols m.st m.artifact
    { node := if should_test r.1 = "test" then .test else .terminated,
      st := r.1, artifact := r.2, genCalls := m.genCalls + 1, testCalls := m.testCalls }
  | .test =>
    let s' := run_tests_node (env.testOutcomes m.testCalls) m.st
    { m with
      node := if should_continue_fixing s' = "fix" then .fix else .terminated,
      st := s', testCalls := m.testCalls + 1 }
  | .fix => { m with node := .generate, st := self_fix_node m.st }
  | .terminated => m

/-- `n` steps of the workflow. -/
def stepN (env : Env) : Nat → Machine → Machine
  | 0, m => m
  | n + 1, m => stepN env n (step env m)

/-- The `initial_state` built by `run` (lines 175-185). -/
def initState (target : List Char) (maxA : Nat) : AgentState :=
  { messages := []
    target_bank := target
    parser_path := parserPathOf target
    csv_path := csvPathOf target
    current_code := none
    test_results := none
    attempt_count := 1
    max_attempts := maxA
    task_complete := false }

/-- The machine at the start of `run(target_bank, max_attempts)`
(entry point `plan`, line 79); `artifact0` is whatever the artifact file held
before the run (the run never reads it, only overwrites it). -/
def initMachine (target : List Char) (maxA : Nat) (artifact0 : Option (List Char)) :
    Machine :=
  { node := .plan, st := initState target maxA, artifact := artifact0,
    genCalls := 0, testCalls := 0 }

/-- The declared default of `run`'s `max_attempts` parameter (line 172). -/
def runDefaultMaxAttempts : Nat := 3

/-- The options `main` registers on its `argparse.ArgumentParser`
(lines 196-199): exactly `--target` and `--api-key`, both with
`required=True`.  No retry-limit option is registered. -/
inductive CliOption where
  | target
  | apiKey
deriving DecidableEq

/-- `required=True` on both registered options. -/
def cliRequired : CliOption → Bool := fun _ => true

/-- A successfully parsed command line: one value per accepted option. -/
structure CliArgs where
  target : List Char
  apiKey : List Char
deriving DecidableEq

/-- `main` (lines 195-202): builds the agent from the credential and calls
`agent.run(target_bank=args.target)`, leaving `run`'s `max_attempts`
parameter at its declared default; the credential only configures the
generation service and does not enter the loop state. -/
def mainMachine (a : CliArgs) (artifact0 : Option (List Char)) : Machine :=
  initMachine a.target runDefaultMaxAttempts artifact0

/-- The attempt limit a process invocation actually runs with. -/
def processLimit (a : CliArgs) : Nat := (mainMachine a none).st.max_attempts

/-- A generation cycle "yields no code": a service exception, or a reply whose
extraction is falsy (`None` or the empty string). -/
def yieldsNoCode : GenOutcome → Bool
  | .exc _ => true
  | .resp text => !codeTruthy (extract_code text)

/-- The feedback recorded for a no-code generation cycle. -/
def noCodeFeedback : GenOutcome → List Char
  | .exc e => genExcMessage e
  | .resp _ => noCodeMessage

/-- Run invariant tying the attempt counter, call counters and completion flag
to the node about to execute. -/
def Inv (m : Machine) : Prop :=
  1 ≤ m.st.max_attempts ∧ m.st.attempt_count ≤ m.st.max_attempts ∧
  (m.node = .plan → m.st.attempt_count = 1 ∧ m.genCalls = 0 ∧
    m.st.task_complete = false) ∧
  (m.node = .generate → m.genCalls + 1 = m.st.attempt_count ∧
    m.st.task_complete = false) ∧
  (m.node = .test → m.genCalls = m.st.attempt_count ∧
    m.st.task_complete = false) ∧
  (m.node = .fix → m.genCalls = m.st.attempt_count ∧
    m.st.task_complete = false ∧ m.st.attempt_count < m.st.max_attempts) ∧
  (m.node = .terminated → m.genCalls ≤ m.st.max_attempts)

/-- Termination measure: strictly decreases on every step out of a
non-terminated node of an invariant-respecting machine. -/
def loopMeasure (m : Machine) : Nat :=
  match m.node with
  | .plan => 3 * m.st.max_attempts + 4
  | .generate => 3 * (m.st.max_attempts - m.st.attempt_count) + 3
  | .test => 3 * (m.st.max_attempts - m.st.attempt_count) + 2
  | .fix => 3 * (m.st.max_attempts - m.st.attempt_count) + 1
  | .terminated => 0

/-- A reply whose extraction is the truthy code `x = 1`. -/
def respOkText : List Char := "```python\nx = 1\n```".data

/-- Oracle: generation always replies with good code, tests always pass. -/
def envPass : Env :=
  { genOutcomes := fun _ => .resp respOkText,
    testOutcomes := fun _ => .completed 0 [] [],
    csvCols := [] }

/-- Oracle: generation always raises, tests (never reached) would pass. -/
def envExc : Env :=
  { genOutcomes := fun _ => .exc "boom".data,
    testOutcomes := fun _ => .completed 0 [] [],
    csvCols := [] }

/-- Oracle: generation always replies with good code, tests always fail. -/
def envFail : Env :=
  { genOutcomes := fun _ => .resp respOkText,
    testOutcomes := fun _ => .completed 1 "out".data "err".data,
    csvCols := [] }

theorem splitFirst_nil (s : List Char) : splitFirst s [] = none := rfl

theorem splitFirst_cons (s : List Char) (c : Char) (cs : List Char) :
    splitFirst s (c :: cs) =
      if s.isPrefixOf (c :: cs) then some ([], (c :: cs).drop s.length)
      else
        match splitFirst s cs with
        | some (pre, post) => some (c :: pre, post)
        | none => none := rfl

theorem splitFirst_length_lt {s : List Char} (hs : s ≠ []) :
    ∀ {t pre post : List Char}, splitFirst s t = some (pre, post) →
      post.length < t.length := by
  intro t
  induction t with
  | nil => intro pre post h; simp [splitFirst_nil] at h
  | cons c cs ih =>
    intro pre post h
    rw [splitFirst_cons] at h
    split at h
    · rename_i hpre
      simp only [Option.some.injEq, Prod.mk.injEq] at h
      obtain ⟨h1, h2⟩ := h
      subst h2
      have hlen : 0 < s.length := List.length_pos.mpr hs
      simp only [List.length_drop, List.length_cons]
      omega
    · split at h
      · rename_i pre' post' heq
        simp only [Option.some.injEq, Prod.mk.injEq] at h
        obtain ⟨h1, h2⟩ := h
        subst h2
        have := ih heq
        simp only [List.length_cons]
        omega
      · exact absurd h (by simp)

theorem pysplitF_big {s : List Char} (hs : s ≠ []) :
    ∀ n, ∀ {t : List Char}, t.length < n →
      pysplitF s n t = pysplitF s (t.length + 1) t := by
  intro n
  induction n using Nat.strong_induction_on with
  | _ n ihn =>
    intro t ht
    match n, ht with
    | Nat.succ n, ht =>
      rw [pysplitF, pysplitF]
      cases heq : splitFirst s t with
      | none => rfl
      | some pp =>
        obtain ⟨pre, post⟩ := pp
        have hlt : post.length < t.length := splitFirst_length_lt hs heq
        have h1 : pysplitF s n post = pysplitF s (post.length + 1) post :=
          ihn n (Nat.lt_succ_self n) (by omega)
        have h2 : pysplitF s t.length post = pysplitF s (post.length + 1) post :=
          ihn t.length (by omega) hlt
        show pre :: pysplitF s n post = pre :: pysplitF s t.length post
        rw [h1, h2]

theorem pysplit_eq {s : List Char} (hs : s ≠ []) (t : List Char) :
    pysplit s t =
      match splitFirst s t with
      | some (pre, post) => pre :: pysplit s post
      | none => [t] := by
  rw [pysplit, pysplitF]
  cases heq : splitFirst s t with
  | none => rfl
  | some pp =>
    obtain ⟨pre, post⟩ := pp
    have hlt : post.length < t.length := splitFirst_length_lt hs heq
    show pre :: pysplitF s t.length post = pre :: pysplit s post
    rw [pysplitF_big hs t.length hlt]
    rfl

theorem pysplit_getD_zero {s : List Char} (hs : s ≠ []) (t : List Char) :
    (pysplit s t).getD 0 [] = firstChunk s t := by
  rw [pysplit_eq hs, firstChunk]
  cases heq : splitFirst s t with
  | none => rfl
  | some pp => obtain ⟨pre, post⟩ := pp; rfl

theorem pysplit_getD_one {s : List Char} (hs : s ≠ []) {t pre post : List Char}
    (h : splitFirst s t = some (pre, post)) :
    (pysplit s t).getD 1 [] = firstChunk s post := by
  rw [pysplit_eq hs, h]
  simpa using pysplit_getD_zero hs post

theorem containsSub_eq_isSome {s : List Char} (hs : s ≠ []) (t : List Char) :
    containsSub s t = (splitFirst s t).isSome := by
  induction t with
  | nil => simp [containsSub, splitFirst_nil, List.isEmpty_iff, hs]
  | cons c cs ih =>
    rw [containsSub, splitFirst_cons]
    by_cases hp : s.isPrefixOf (c :: cs)
    · simp [hp]
    · simp only [hp, Bool.false_or, if_neg (by simp [hp] : ¬(s.isPrefixOf (c :: cs) = true))]
      rw [ih]
      cases heq : splitFirst s cs with
      | none => rfl
      | some pp => obtain ⟨pre, post⟩ := pp; rfl

theorem containsSub_infix_iff {s t : List Char} :
    containsSub s t = true ↔ s <:+: t := by
  induction t with
  | nil => simp [containsSub, List.isEmpty_iff, List.infix_nil]
  | cons c cs ih =>
    rw [containsSub, List.infix_cons_iff, Bool.or_eq_true, ih,
      List.isPrefixOf_iff_prefix]

theorem firstChunk_nil (s : List Char) : firstChunk s [] = [] := rfl

theorem firstChunk_cons (s : List Char) (c : Char) (cs : List Char) :
    firstChunk s (c :: cs) =
      if s.isPrefixOf (c :: cs) then [] else c :: firstChunk s cs := by
  rw [firstChunk, splitFirst_cons]
  by_cases hp : s.isPrefixOf (c :: cs)
  · simp [hp]
  · simp only [hp, Bool.false_eq_true, if_false, firstChunk]
    cases heq : splitFirst s cs with
    | none => rfl
    | some pp => obtain ⟨pre, post⟩ := pp; rfl

theorem firstChunk_isPre (s : List Char) : ∀ t : List Char, firstChunk s t <+: t := by
  intro t
  induction t with
  | nil => simp [firstChunk_nil]
  | cons c cs ih =>
    rw [firstChunk_cons]
    by_cases hp : s.isPrefixOf (c :: cs)
    · simp [hp]
    · simpa [hp] using ih

theorem containsSub_length_le {s t : List Char} (h : containsSub s t = true) :
    s.length ≤ t.length :=
  (containsSub_infix_iff.mp h).sublist.length_le

/-- If `f` occurs inside a prefix `P` of `t`, the chunk before the first
occurrence of `f` is the same in `P` and in `t`. -/
theorem firstChunk_of_pre {f : List Char} (hf : f ≠ []) :
    ∀ {P t : List Char}, P <+: t → containsSub f P = true →
      firstChunk f P = firstChunk f t := by
  intro P
  induction P with
  | nil => intro t _ hc; simp [containsSub, List.isEmpty_iff, hf] at hc
  | cons p P' ih =>
    intro t hpt hc
    cases t with
    | nil => exact absurd hpt (by simp)
    | cons c t' =>
      obtain ⟨hpc, hpt'⟩ := List.cons_prefix_cons.mp hpt
      subst hpc
      rw [firstChunk_cons, firstChunk_cons]
      by_cases hp : f.isPrefixOf (p :: P')
      · have hp2 : f.isPrefixOf (p :: t') := by
          rw [List.isPrefixOf_iff_prefix] at hp ⊢
          exact hp.trans (List.cons_prefix_cons.mpr ⟨rfl, hpt'⟩)
        rw [if_pos hp, if_pos hp2]
      · rw [containsSub, Bool.or_eq_true] at hc
        rcases hc with hc | hc
        · exact absurd hc hp
        · have hp2 : ¬ f.isPrefixOf (p :: t') := by
            intro hpre
            rw [List.isPrefixOf_iff_prefix] at hpre hp
            cases f with
            | nil => exact hf rfl
            | cons a f' =>
              obtain ⟨rfl, haf⟩ := List.cons_prefix_cons.mp hpre
              have hlen : f'.length < P'.length := by
                have := containsSub_length_le hc
                simp only [List.length_cons] at this ⊢
                omega
              have hfp : f' <+: P' :=
                List.prefix_of_prefix_length_le haf hpt' (le_of_lt hlen)
              exact hp (List.cons_prefix_cons.mpr ⟨rfl, hfp⟩)
          rw [if_neg hp, if_neg hp2, ih hpt' hc]

/-- On text containing the opening fence, `_extract_code` returns the chunk
before the next `fencePy` occurrence, truncated before its first bare fence,
trimmed. -/
theorem extract_code_fenced {text pre post : List Char}
    (h : splitFirst fencePy text = some (pre, post)) :
    extract_code text =
      some (pytrim (firstChunk fence (firstChunk fencePy post))) := by
  have hne : fencePy ≠ [] := by decide
  have hfne : fence ≠ [] := by decide
  have hc : containsSub fencePy text = true := by
    rw [containsSub_eq_isSome hne, h]; rfl
  rw [extract_code, if_pos hc, pysplit_getD_one hne h, pysplit_getD_zero hfne]

/-- On text not containing the opening fence, `_extract_code` trims the whole
text (and signals no code on empty input). -/
theorem extract_code_nofence {text : List Char}
    (h : containsSub fencePy text = false) :
    extract_code text = if text = [] then none else some (pytrim text) := by
  rw [extract_code, if_neg (by simp [h])]

/-- When `s` does not occur in `t`, the chunk before its first occurrence is
all of `t`. -/
theorem firstChunk_of_not_contains {s t : List Char} (hs : s ≠ [])
    (h : containsSub s t = false) : firstChunk s t = t := by
  rw [firstChunk]
  cases heq : splitFirst s t with
  | none => rfl
  | some pp =>
    rw [containsSub_eq_isSome hs, heq] at h
    simp at h

/-- Absence of the bare fence implies absence of the tagged fence. -/
theorem not_contains_fencePy_of_not_fence {t : List Char}
    (h : containsSub fence t = false) : containsSub fencePy t = false := by
  by_contra hcc
  have h1 : fencePy <:+: t := containsSub_infix_iff.mp (by simpa using hcc)
  have h2 : fence <:+: t :=
    (( List.isPrefixOf_iff_prefix.mp (by decide : fence.isPrefixOf fencePy)).isInfix).trans h1
  have h3 := containsSub_infix_iff.mpr h2
  rw [h] at h3
  exact Bool.false_ne_true h3

/-- Claim C2, counterexample.  On `cexText` — an opening ```python fence
followed by one stray backtick and a second ```python fence — the code's
extraction returns the single backtick, while the spec's contract ("the inner
text between the first such opening fence and the next fence, trimmed")
returns the empty string: the next fence ``` begins immediately after the
opening fence, but Python's `split("```python")` consumes the overlapping
second tag occurrence first. -/
theorem claim_C2_counterexample :
    extract_code cexText = some ['`'] ∧ extractSpec cexText = some [] ∧
      extract_code cexText ≠ extractSpec cexText :=
  ⟨by decide, by decide, by decide⟩

/-- Claim C2 (amended): for every text containing the opening ```python fence,
let the candidate block be the chunk between the first and the next
non-overlapping ```python occurrence (to the end of text when there is no
second occurrence).  If a bare fence ``` occurs inside that chunk, extraction
returns exactly the inner text between the opening fence and the next fence,
trimmed; otherwise it returns the whole chunk, trimmed (this differs from "up
to the next fence" only when a later ```python occurrence overlaps that
fence, as in the counterexample).  With no opening fence and non-empty text,
extraction returns the full text trimmed; on empty text it signals no code. -/
theorem claim_C2_extraction (text pre post : List Char) :
    (splitFirst fencePy text = some (pre, post) →
      containsSub fence (firstChunk fencePy post) = true →
      extract_code text = some (pytrim (firstChunk fence post))) ∧
    (splitFirst fencePy text = some (pre, post) →
      containsSub fence (firstChunk fencePy post) = false →
      extract_code text = some (pytrim (firstChunk fencePy post))) ∧
    (splitFirst fencePy text = none → text ≠ [] →
      extract_code text = some (pytrim text)) ∧
    (text = [] → extract_code text = none) := by
  refine ⟨?_, ?_, ?_, ?_⟩
  · intro h hc
    rw [extract_code_fenced h,
      firstChunk_of_pre (by decide) (firstChunk_isPre fencePy post) hc]
  · intro h hc
    rw [extract_code_fenced h, firstChunk_of_not_contains (by decide) hc]
  · intro h hne
    have hc : containsSub fencePy text = false := by
      rw [containsSub_eq_isSome (by decide), h]; rfl
    rw [extract_code_nofence hc, if_neg hne]
  · intro h
    subst h
    rfl

theorem claim_C2_extraction_witness :
    extract_code ("a```python b``` c".data) =
      some (pytrim (firstChunk fence (" b``` c".data))) :=
  (claim_C2_extraction ("a```python b``` c".data) "a".data (" b``` c".data)).1
    (by decide) (by decide)

/-- Claim C10: at the extraction boundary, an opening fence with no subsequent
closing fence yields all text after the opening fence, trimmed; and
whitespace-only (non-empty) input extracts to the empty string, which the
generation step treats exactly like no code: `current_code` cleared, the
no-code feedback recorded, the artifact untouched, and the router sending the
loop to END instead of verification. -/
theorem claim_C10_extraction_boundary (text pre post : List Char)
    (cols : List (List Char)) (s : AgentState) (art : Option (List Char)) :
    (splitFirst fencePy text = some (pre, post) →
      containsSub fence post = false →
      extract_code text = some (pytrim post)) ∧
    (text ≠ [] → (∀ c ∈ text, pyIsSpace c = true) →
      extract_code text = some [] ∧
      generate_code_node (.resp text) cols s art =
        ({ s with current_code := none, test_results := some noCodeMessage }, art) ∧
      should_test (generate_code_node (.resp text) cols s art).1 = "end") := by
  constructor
  · intro h hc
    have hPy : containsSub fencePy post = false := not_contains_fencePy_of_not_fence hc
    rw [extract_code_fenced h, firstChunk_of_not_contains (by decide) hPy,
      firstChunk_of_not_contains (by decide) hc]
  · intro hne hsp
    have hnb : containsSub fencePy text = false := by
      by_contra hcc
      have h1 : fencePy <:+: text := containsSub_infix_iff.mp (by simpa using hcc)
      have h2 : '`' ∈ text := h1.subset (by decide)
      have h3 := hsp '`' h2
      simp [pyIsSpace] at h3
    have ht : pytrim text = [] := by
      rw [pytrim]
      have hdw : text.dropWhile pyIsSpace = [] :=
        List.dropWhile_eq_nil_iff.mpr (fun x hx => hsp x hx)
      rw [hdw]
      rfl
    have hex : extract_code text = some [] := by
      rw [extract_code_nofence hnb, if_neg hne, ht]
    refine ⟨hex, ?_, ?_⟩
    · simp [generate_code_node, hex, codeTruthy]
    · simp [generate_code_node, hex, codeTruthy, should_test]

theorem claim_C10_witness :
    extract_code ("  \n ".data) = some [] :=
  ((claim_C10_extraction_boundary ("  \n ".data) [] [] [] (initState [] 1) none).2
    (by decide) (by decide)).1

theorem step_plan {env : Env} {m : Machine} (h : m.node = .plan) :
    step env m = { m with node := .generate, st := plan_node m.st } := by
  rw [step, h]

theorem step_generate {env : Env} {m : Machine} (h : m.node = .generate) :
    step env m =
      { node :=
          if should_test
              (generate_code_node (env.genOutcomes m.genCalls) env.csvCols
                m.st m.artifact).1 = "test"
          then .test else .terminated,
        st := (generate_code_node (env.genOutcomes m.genCalls) env.csvCols
          m.st m.artifact).1,
        artifact := (generate_code_node (env.genOutcomes m.genCalls) env.csvCols
          m.st m.artifact).2,
        genCalls := m.genCalls + 1, testCalls := m.testCalls } := by
  rw [step, h]

theorem step_test {env : Env} {m : Machine} (h : m.node = .test) :
    step env m =
      { m with
        node :=
          if should_continue_fixing
              (run_tests_node (env.testOutcomes m.testCalls) m.st) = "fix"
          then .fix else .terminated,
        st := run_tests_node (env.testOutcomes m.testCalls) m.st,
        testCalls := m.testCalls + 1 } := by
  rw [step, h]

theorem step_fix {env : Env} {m : Machine} (h : m.node = .fix) :
    step env m = { m with node := .generate, st := self_fix_node m.st } := by
  rw [step, h]

theorem step_terminated {env : Env} {m : Machine} (h : m.node = .terminated) :
    step env m = m := by
  rw [step, h]

theorem stepN_terminated {env : Env} {m : Machine} (h : m.node = .terminated) :
    ∀ k, stepN env k m = m := by
  intro k
  induction k with
  | zero => rfl
  | succ k ih => rw [stepN, step_terminated h, ih]

theorem generate_fields (g : GenOutcome) (cols : List (List Char))
    (s : AgentState) (art : Option (List Char)) :
    (generate_code_node g cols s art).1.attempt_count = s.attempt_count ∧
    (generate_code_node g cols s art).1.max_attempts = s.max_attempts ∧
    (generate_code_node g cols s art).1.task_complete = s.task_complete := by
  cases g with
  | exc e => exact ⟨rfl, rfl, rfl⟩
  | resp text =>
    by_cases hc : codeTruthy (extract_code text) <;>
      simp [generate_code_node, hc]

theorem run_tests_fields (t : TestOutcome) (s : AgentState) :
    (run_tests_node t s).attempt_count = s.attempt_count ∧
    (run_tests_node t s).max_attempts = s.max_attempts := by
  cases t with
  | completed rc out err =>
    by_cases hz : rc = 0 <;> simp [run_tests_node, hz]
  | exc e => exact ⟨rfl, rfl⟩

theorem scf_eq_fix_iff (s : AgentState) :
    should_continue_fixing s = "fix" ↔
      s.task_complete = false ∧ s.attempt_count < s.max_attempts := by
  have hne : ("end" : String) ≠ "fix" := by decide
  rw [should_continue_fixing]
  by_cases h1 : s.task_complete
  · simp [h1, hne]
  · by_cases h2 : s.attempt_count < s.max_attempts
    · simp [h1, h2]
    · simp [h1, h2, hne]

theorem step_max (env : Env) (m : Machine) :
    (step env m).st.max_attempts = m.st.max_attempts := by
  cases hn : m.node
  · rw [step_plan hn]; rfl
  · rw [step_generate hn]; exact (generate_fields _ _ _ _).2.1
  · rw [step_test hn]; exact (run_tests_fields _ _).2
  · rw [step_fix hn]; rfl
  · rw [step_terminated hn]

theorem stepN_max (env : Env) (n : Nat) (m : Machine) :
    (stepN env n m).st.max_attempts = m.st.max_attempts := by
  induction n generalizing m with
  | zero => rfl
  | succ n ih => rw [stepN, ih, step_max]

theorem step_attempt_fix (env : Env) (m : Machine) (h : m.node = .fix) :
    (step env m).st.attempt_count = m.st.attempt_count + 1 := by
  rw [step_fix h]; rfl

theorem step_attempt_nonfix (env : Env) (m : Machine) (h : m.node ≠ .fix) :
    (step env m).st.attempt_count = m.st.attempt_count := by
  cases hn : m.node
  · rw [step_plan hn]; rfl
  · rw [step_generate hn]; exact (generate_fields _ _ _ _).1
  · rw [step_test hn]; exact (run_tests_fields _ _).1
  · exact absurd hn h
  · rw [step_terminated hn]

theorem Inv_init (target : List Char) (maxA : Nat) (h : 1 ≤ maxA)
    (art0 : Option (List Char)) : Inv (initMachine target maxA art0) := by
  refine ⟨h, h, fun _ => ⟨rfl, rfl, rfl⟩, fun hn => ?_, fun hn => ?_,
    fun hn => ?_, fun hn => ?_⟩ <;> exact Node.noConfusion hn

theorem Inv_step (env : Env) (m : Machine) (h : Inv m) : Inv (step env m) := by
  obtain ⟨h1, h2, hplan, hgen, htest, hfix, hterm⟩ := h
  cases hn : m.node with
  | plan =>
    obtain ⟨ha, hg, hc⟩ := hplan hn
    rw [step_plan hn]
    refine ⟨h1, h2, fun hq => Node.noConfusion hq, fun _ => ⟨?_, hc⟩,
      fun hq => Node.noConfusion hq, fun hq => Node.noConfusion hq,
      fun hq => Node.noConfusion hq⟩
    show m.genCalls + 1 = m.st.attempt_count
    omega
  | generate =>
    obtain ⟨hg, hc⟩ := hgen hn
    obtain ⟨ra, rm, rc⟩ :=
      generate_fields (env.genOutcomes m.genCalls) env.csvCols m.st m.artifact
    rw [step_generate hn]
    by_cases hshould :
        should_test (generate_code_node (env.genOutcomes m.genCalls) env.csvCols
          m.st m.artifact).1 = "test"
    · rw [if_pos hshould]
      refine ⟨by rw [rm]; exact h1, by rw [ra, rm]; exact h2,
        fun hq => Node.noConfusion hq, fun hq => Node.noConfusion hq,
        fun _ => ⟨by rw [ra]; exact hg, by rw [rc]; exact hc⟩,
        fun hq => Node.noConfusion hq, fun hq => Node.noConfusion hq⟩
    · rw [if_neg hshould]
      refine ⟨by rw [rm]; exact h1, by rw [ra, rm]; exact h2,
        fun hq => Node.noConfusion hq, fun hq => Node.noConfusion hq,
        fun hq => Node.noConfusion hq, fun hq => Node.noConfusion hq,
        fun _ => ?_⟩
      show m.genCalls + 1 ≤ _
      rw [rm]
      omega
  | test =>
    obtain ⟨hg, hc⟩ := htest hn
    obtain ⟨sa, sm⟩ := run_tests_fields (env.testOutcomes m.testCalls) m.st
    rw [step_test hn]
    by_cases hs :
        should_continue_fixing (run_tests_node (env.testOutcomes m.testCalls) m.st) = "fix"
    · rw [if_pos hs]
      obtain ⟨hcf, hlt⟩ := (scf_eq_fix_iff _).mp hs
      refine ⟨by rw [sm]; exact h1, by rw [sa, sm]; exact h2,
        fun hq => Node.noConfusion hq, fun hq => Node.noConfusion hq,
        fun hq => Node.noConfusion hq, fun _ => ⟨by rw [sa]; exact hg, hcf, hlt⟩,
        fun hq => Node.noConfusion hq⟩
    · rw [if_neg hs]
      refine ⟨by rw [sm]; exact h1, by rw [sa, sm]; exact h2,
        fun hq => Node.noConfusion hq, fun hq => Node.noConfusion hq,
        fun hq => Node.noConfusion hq, fun hq => Node.noConfusion hq,
        fun _ => ?_⟩
      show m.genCalls ≤ _
      rw [sm]
      omega
  | fix =>
    obtain ⟨hg, hc, hlt⟩ := hfix hn
    rw [step_fix hn]
    refine ⟨h1, ?_, fun hq => Node.noConfusion hq, fun _ => ⟨?_, hc⟩,
      fun hq => Node.noConfusion hq, fun hq => Node.noConfusion hq,
      fun hq => Node.noConfusion hq⟩
    · show m.st.attempt_count + 1 ≤ m.st.max_attempts
      omega
    · show m.genCalls + 1 = m.st.attempt_count + 1
      omega
  | terminated =>
    rw [step_terminated hn]
    exact ⟨h1, h2, hplan, hgen, htest, hfix, hterm⟩

theorem Inv_stepN (env : Env) (n : Nat) (m : Machine) (h : Inv m) :
    Inv (stepN env n m) := by
  induction n generalizing m with
  | zero => exact h
  | succ n ih => rw [stepN]; exact ih _ (Inv_step env m h)

theorem loopMeasure_step_lt (env : Env) (m : Machine) (h : Inv m)
    (hnt : m.node ≠ .terminated) : loopMeasure (step env m) < loopMeasure m := by
  obtain ⟨h1, h2, hplan, hgen, htest, hfix, hterm⟩ := h
  cases hn : m.node with
  | plan =>
    rw [step_plan hn]
    simp only [loopMeasure, hn]
    show 3 * (m.st.max_attempts - m.st.attempt_count) + 3 < 3 * m.st.max_attempts + 4
    omega
  | generate =>
    obtain ⟨ra, rm, _⟩ :=
      generate_fields (env.genOutcomes m.genCalls) env.csvCols m.st m.artifact
    rw [step_generate hn]
    by_cases hshould :
        should_test (generate_code_node (env.genOutcomes m.genCalls) env.csvCols
          m.st m.artifact).1 = "test"
    · rw [if_pos hshould]
      simp only [loopMeasure, hn]
      rw [ra, rm]
      omega
    · rw [if_neg hshould]
      simp only [loopMeasure, hn]
      omega
  | test =>
    obtain ⟨sa, sm⟩ := run_tests_fields (env.testOutcomes m.testCalls) m.st
    rw [step_test hn]
    by_cases hs :
        should_continue_fixing (run_tests_node (env.testOutcomes m.testCalls) m.st) = "fix"
    · rw [if_pos hs]
      simp only [loopMeasure, hn]
      rw [sa, sm]
      omega
    · rw [if_neg hs]
      simp only [loopMeasure, hn]
      omega
  | fix =>
    obtain ⟨hg, hc, hlt⟩ := hfix hn
    rw [step_fix hn]
    simp only [loopMeasure, hn]
    show 3 * (m.st.max_attempts - (m.st.attempt_count + 1)) + 3 <
      3 * (m.st.max_attempts - m.st.attempt_count) + 1
    omega
  | terminated => exact absurd hn hnt

theorem stepN_terminated_of_measure (env : Env) :
    ∀ n (m : Machine), Inv m → loopMeasure m ≤ n →
      (stepN env n m).node = .terminated := by
  intro n
  induction n with
  | zero =>
    intro m hI hm
    cases hq : m.node
    · simp only [loopMeasure, hq] at hm; omega
    · simp only [loopMeasure, hq] at hm; omega
    · simp only [loopMeasure, hq] at hm; omega
    · simp only [loopMeasure, hq] at hm; omega
    · exact hq
  | succ n ih =>
    intro m hI hm
    by_cases hq : m.node = .terminated
    · rw [stepN, step_terminated hq]
      have hz : loopMeasure m = 0 := by simp [loopMeasure, hq]
      exact ih m hI (by omega)
    · have hlt := loopMeasure_step_lt env m hI hq
      rw [stepN]
      exact ih (step env m) (Inv_step env m hI) (by omega)

/-- Claim C1: for every `attemptLimit ≥ 1` and every sequence of
generation/verification outcomes, the run reaches the terminal node within a
fixed number of steps (`3·attemptLimit + 4` suffices), having made at most
`attemptLimit + 1` generation cycles (in fact at most `attemptLimit`), and
once terminal it stays terminal forever: the loop never executes
unboundedly. -/
theorem claim_C1_termination (env : Env) (target : List Char) (maxA : Nat)
    (art0 : Option (List Char)) (h : 1 ≤ maxA) :
    (stepN env (3 * maxA + 4) (initMachine target maxA art0)).node = .terminated ∧
    (stepN env (3 * maxA + 4) (initMachine target maxA art0)).genCalls ≤ maxA + 1 ∧
    ∀ k, stepN env k (stepN env (3 * maxA + 4) (initMachine target maxA art0)) =
      stepN env (3 * maxA + 4) (initMachine target maxA art0) := by
  have hI := Inv_init target maxA h art0
  have hm : loopMeasure (initMachine target maxA art0) ≤ 3 * maxA + 4 := by
    simp [loopMeasure, initMachine, initState]
  have ht := stepN_terminated_of_measure env (3 * maxA + 4) _ hI hm
  obtain ⟨_, _, _, _, _, _, hterm⟩ := Inv_stepN env (3 * maxA + 4) _ hI
  have hg := hterm ht
  rw [stepN_max env (3 * maxA + 4) (initMachine target maxA art0)] at hg
  have hmaxv : (initMachine target maxA art0).st.max_attempts = maxA := rfl
  rw [hmaxv] at hg
  exact ⟨ht, by omega, stepN_terminated ht⟩

theorem claim_C1_witness :
    (stepN envPass (3 * 1 + 4) (initMachine "icici".data 1 none)).node =
      .terminated :=
  (claim_C1_termination envPass "icici".data 1 none (by decide)).1

/-- Shared bound: along any run with `attemptLimit ≥ 1`, the attempt counter
stays at or below the limit. -/
theorem run_attempt_le (env : Env) (target : List Char) (maxA : Nat)
    (art0 : Option (List Char)) (n : Nat) (h : 1 ≤ maxA) :
    (stepN env n (initMachine target maxA art0)).st.attempt_count ≤ maxA := by
  obtain ⟨_, h2, _⟩ := Inv_stepN env n _ (Inv_init target maxA h art0)
  rw [stepN_max env n (initMachine target maxA art0)] at h2
  exact h2

/-- Claim C9: with `attemptLimit ≥ 1`, the attempt counter never exceeds
`attemptLimit` itself at any point of any run: the Fixing transition is taken
only while `attempt < attemptLimit`, so the increment keeps
`attempt ≤ attemptLimit`. -/
theorem claim_C9_attempt_le_limit (env : Env) (target : List Char) (maxA : Nat)
    (art0 : Option (List Char)) (n : Nat) (h : 1 ≤ maxA) :
    (stepN env n (initMachine target maxA art0)).st.attempt_count ≤ maxA :=
  run_attempt_le env target maxA art0 n h

theorem claim_C9_witness :
    (stepN envFail 9 (initMachine "icici".data 2 none)).st.attempt_count ≤ 2 :=
  claim_C9_attempt_le_limit envFail "icici".data 2 none 9 (by decide)

/-- Claim C3: in every run (`attemptLimit ≥ 1`, any outcome sequence), the
attempt counter starts at 1, never decreases from one step to the next,
increases by exactly 1 on the step that executes the Fixing node, is left
unchanged by every other step, and never exceeds `attemptLimit + 1` (in fact
never exceeds `attemptLimit`). -/
theorem claim_C3_attempt_counter (env : Env) (target : List Char) (maxA : Nat)
    (art0 : Option (List Char)) (n : Nat) (h : 1 ≤ maxA) :
    (initMachine target maxA art0).st.attempt_count = 1 ∧
    (stepN env n (initMachine target maxA art0)).st.attempt_count ≤
      (step env (stepN env n (initMachine target maxA art0))).st.attempt_count ∧
    ((stepN env n (initMachine target maxA art0)).node = .fix →
      (step env (stepN env n (initMachine target maxA art0))).st.attempt_count =
        (stepN env n (initMachine target maxA art0)).st.attempt_count + 1) ∧
    ((stepN env n (initMachine target maxA art0)).node ≠ .fix →
      (step env (stepN env n (initMachine target maxA art0))).st.attempt_count =
        (stepN env n (initMachine target maxA art0)).st.attempt_count) ∧
    (stepN env n (initMachine target maxA art0)).st.attempt_count ≤ maxA + 1 := by
  refine ⟨rfl, ?_, fun hf => step_attempt_fix env _ hf,
    fun hf => step_attempt_nonfix env _ hf, ?_⟩
  · by_cases hf : (stepN env n (initMachine target maxA art0)).node = .fix
    · rw [step_attempt_fix env _ hf]; omega
    · rw [step_attempt_nonfix env _ hf]
  · have := run_attempt_le env target maxA art0 n h
    omega

theorem claim_C3_witness :
    (stepN envFail 4 (initMachine "icici".data 2 none)).st.attempt_count ≤
      (step envFail (stepN envFail 4 (initMachine "icici".data 2 none))).st.attempt_count :=
  (claim_C3_attempt_counter envFail "icici".data 2 none 4 (by decide)).2.1

/-- Claim C4: at any reachable point `m` of a run, if the Testing node is
about to execute, then the step leads to Terminated iff the verification
succeeded or (it failed and `attempt ≥ attemptLimit`), and to Fixing iff the
verification failed and `attempt < attemptLimit`; moreover the run limit is
constant (`m.st.max_attempts = attemptLimit`), and once `done = true` the
machine is terminal and frozen: no further generation or verification step
ever occurs. -/
theorem claim_C4_test_transitions (env : Env) (target : List Char) (maxA : Nat)
    (art0 : Option (List Char)) (n : Nat) (m : Machine) (h : 1 ≤ maxA)
    (hm : m = stepN env n (initMachine target maxA art0)) :
    m.st.max_attempts = maxA ∧
    (m.node = .test →
      (((step env m).node = .terminated ↔
          ((run_tests_node (env.testOutcomes m.testCalls) m.st).task_complete = true ∨
            ((run_tests_node (env.testOutcomes m.testCalls) m.st).task_complete = false ∧
              m.st.max_attempts ≤ m.st.attempt_count))) ∧
        ((step env m).node = .fix ↔
          ((run_tests_node (env.testOutcomes m.testCalls) m.st).task_complete = false ∧
            m.st.attempt_count < m.st.max_attempts)))) ∧
    (m.st.task_complete = true → ∀ k, stepN env k m = m) := by
  have hmax : m.st.max_attempts = maxA := by
    rw [hm, stepN_max env n (initMachine target maxA art0)]
    rfl
  refine ⟨hmax, fun htest => ?_, fun hdone => ?_⟩
  · obtain ⟨sa, sm⟩ := run_tests_fields (env.testOutcomes m.testCalls) m.st
    have hchar := scf_eq_fix_iff (run_tests_node (env.testOutcomes m.testCalls) m.st)
    rw [sa, sm] at hchar
    rw [step_test htest]
    by_cases hs :
        should_continue_fixing (run_tests_node (env.testOutcomes m.testCalls) m.st) = "fix"
    · obtain ⟨hcf, hlt⟩ := hchar.mp hs
      rw [if_pos hs]
      constructor
      · constructor
        · intro hcon; exact Node.noConfusion hcon
        · intro hdis
          rcases hdis with hd | ⟨_, hge⟩
          · rw [hcf] at hd; exact absurd hd (by decide)
          · omega
      · exact ⟨fun _ => ⟨hcf, hlt⟩, fun _ => rfl⟩
    · rw [if_neg hs]
      constructor
      · refine ⟨fun _ => ?_, fun _ => rfl⟩
        rw [hchar] at hs
        cases hb : (run_tests_node (env.testOutcomes m.testCalls) m.st).task_complete
        · right
          refine ⟨rfl, ?_⟩
          have hnl : ¬ m.st.attempt_count < m.st.max_attempts := fun hl => hs ⟨hb, hl⟩
          omega
        · exact Or.inl rfl
      · constructor
        · intro hcon; exact Node.noConfusion hcon
        · intro hconj; exact absurd (hchar.mpr hconj) hs
  · obtain ⟨_, _, hplan, hgen, htest', hfix, _⟩ :
        Inv m := hm ▸ Inv_stepN env n _ (Inv_init target maxA h art0)
    have hnode : m.node = .terminated := by
      cases hq : m.node
      · obtain ⟨_, _, hc⟩ := hplan hq; rw [hdone] at hc; exact absurd hc (by decide)
      · obtain ⟨_, hc⟩ := hgen hq; rw [hdone] at hc; exact absurd hc (by decide)
      · obtain ⟨_, hc⟩ := htest' hq; rw [hdone] at hc; exact absurd hc (by decide)
      · obtain ⟨_, hc, _⟩ := hfix hq; rw [hdone] at hc; exact absurd hc (by decide)
      · rfl
    exact stepN_terminated hnode

theorem claim_C4_witness :
    stepN envPass 2 (stepN envPass 3 (initMachine "icici".data 1 none)) =
      stepN envPass 3 (initMachine "icici".data 1 none) :=
  (claim_C4_test_transitions envPass "icici".data 1 none 3
      (stepN envPass 3 (initMachine "icici".data 1 none)) (by decide) rfl).2.2
    (by decide) 2

/-- Claim C5: whenever the Generating node executes and the cycle yields no
code (a service exception, or a reply whose extraction is falsy — empty or
unextractable), the step goes straight to Terminated: no verification is
invoked in that cycle (`testCalls` unchanged), the artifact file's content is
exactly its prior state, the failure is recorded as feedback, and the machine
is frozen thereafter — the loop terminates immediately without retrying. -/
theorem claim_C5_no_code_short_circuit (env : Env) (m : Machine)
    (hn : m.node = .generate)
    (hg : yieldsNoCode (env.genOutcomes m.genCalls) = true) :
    (step env m).node = .terminated ∧
    (step env m).artifact = m.artifact ∧
    (step env m).testCalls = m.testCalls ∧
    (step env m).st.test_results =
      some (noCodeFeedback (env.genOutcomes m.genCalls)) ∧
    ∀ k, stepN env k (step env m) = step env m := by
  rw [step_generate hn]
  cases hgo : env.genOutcomes m.genCalls with
  | exc e =>
    have hnode :
        (if should_test
            (generate_code_node (GenOutcome.exc e) env.csvCols m.st m.artifact).1 = "test"
          then Node.test else Node.terminated) = Node.terminated := by
      rw [if_neg (by simp [generate_code_node, should_test, codeTruthy])]
    refine ⟨hnode, rfl, rfl, rfl, ?_⟩
    intro k
    exact stepN_terminated hnode k
  | resp text =>
    rw [hgo] at hg
    have hcf : codeTruthy (extract_code text) = false := by
      rw [yieldsNoCode] at hg
      simpa using hg
    have hgeq :
        generate_code_node (GenOutcome.resp text) env.csvCols m.st m.artifact =
          ({ m.st with current_code := none, test_results := some noCodeMessage },
            m.artifact) := by
      have hrfl :
          generate_code_node (GenOutcome.resp text) env.csvCols m.st m.artifact =
            if codeTruthy (extract_code text) then
              ({ m.st with current_code := extract_code text }, extract_code text)
            else
              ({ m.st with current_code := none, test_results := some noCodeMessage },
                m.artifact) := rfl
      rw [hrfl, hcf]
      simp
    have hnode :
        (if should_test
            (generate_code_node (GenOutcome.resp text) env.csvCols m.st m.artifact).1 = "test"
          then Node.test else Node.terminated) = Node.terminated := by
      rw [hgeq]
      have hend :
          should_test ({ m.st with current_code := none, test_results := some noCodeMessage }) = "end" := rfl
      rw [if_neg (by rw [hend]; decide)]
    refine ⟨hnode, by rw [hgeq], rfl, by rw [hgeq]; rfl, ?_⟩
    intro k
    exact stepN_terminated hnode k

theorem claim_C5_witness :
    (step envExc
        { node := .generate, st := initState "icici".data 3, artifact := some ['x'],
          genCalls := 0, testCalls := 0 }).artifact = some ['x'] :=
  (claim_C5_no_code_short_circuit envExc
      { node := .generate, st := initState "icici".data 3, artifact := some ['x'],
        genCalls := 0, testCalls := 0 } rfl (by decide)).2.1

/-- Claim C6: in every verification step, a zero exit code sets
`done = true` and the success feedback; any non-zero exit code sets
`done = false` and feedback to the fixed-format concatenation embedding the
process's standard output followed by its standard error; and any caught
exception (the 60-second timeout, a spawn error) sets `done = false` with the
exception recorded as feedback text — the node is a total function, so the
loop never crashes. -/
theorem claim_C6_run_tests (s : AgentState) (rc : Int) (out err e : List Char) :
    (rc = 0 → run_tests_node (.completed rc out err) s =
      { s with test_results := some passMessage, task_complete := true }) ∧
    (rc ≠ 0 → run_tests_node (.completed rc out err) s =
      { s with test_results := some (failMessage out err), task_complete := false }) ∧
    (∃ u v : List Char, failMessage out err = u ++ out ++ v ++ err) ∧
    (run_tests_node (.exc e) s =
      { s with test_results := some (testExcMessage e), task_complete := false }) := by
  refine ⟨fun hz => ?_, fun hnz => ?_, ?_, rfl⟩
  · show (if rc = 0 then _ else _) = _
    rw [if_pos hz]
  · show (if rc = 0 then _ else _) = _
    rw [if_neg hnz]
  · exact ⟨"Tests failed.\nSTDOUT:\n".data, "\nSTDERR:\n".data, by
      simp [failMessage]⟩

theorem claim_C6_witness :
    run_tests_node (.completed 1 "out".data "err".data) (initState "icici".data 3) =
      { initState "icici".data 3 with
        test_results := some (failMessage "out".data "err".data),
        task_complete := false } :=
  (claim_C6_run_tests (initState "icici".data 3) 1 "out".data "err".data []).2.1
    (by decide)

/-- Claim C7, counterexample: two generation steps identical in every input
except the column names enumerated from the reference file produce the very
same prompt (and the very same step result) — the claim that the prompts
differ is false.  `csv_schema` is computed (line 96) but never interpolated
into the prompt f-string (lines 98-111). -/
theorem claim_C7_counterexample :
    mkPrompt "icici".data [['D'], ['X']] none = mkPrompt "icici".data [] none ∧
    ([['D'], ['X']] : List (List Char)) ≠ [] ∧
    generate_code_node (.resp respOkText) [['D'], ['X']] (initState "icici".data 3) none =
      generate_code_node (.resp respOkText) [] (initState "icici".data 3) none :=
  ⟨rfl, by decide, rfl⟩

/-- Claim C7 (amended): the generation step does read the reference file and
enumerate its column names (`csv_schema`, an input of the step), but the
prompt does not embed them: the prompt is exactly the fixed text around the
interpolated target and prior feedback, so two generation steps identical in
every input except the reference file's column names produce identical
prompts and identical step results.  The required schema appearing in the
prompt is the hardcoded constant inside `promptMid`, not the enumerated
columns. -/
theorem claim_C7_prompt_independent (target : List Char) (fb : Option (List Char))
    (cols cols' : List (List Char)) (g : GenOutcome) (s : AgentState)
    (art : Option (List Char)) :
    mkPrompt target cols fb = mkPrompt target cols' fb ∧
    generate_code_node g cols s art = generate_code_node g cols' s art ∧
    mkPrompt target cols fb =
      promptPre ++ target ++ promptMid ++ feedbackText fb ++ promptPost :=
  ⟨rfl, rfl, rfl⟩

/-- Claim C8, counterexample: the process entry surface exposes no
retry-limit override — the attempt limit of a process invocation is the
constant 3 for every parsable command line, and both registered options are
required. -/
theorem claim_C8_counterexample :
    processLimit = (fun _ => 3) ∧ cliRequired = (fun _ => true) :=
  ⟨funext fun _ => rfl, funext fun _ => rfl⟩

/-- Claim C8 (amended): the process entry surface accepts exactly one
required target identifier and one required generation-service credential
(`--target` and `--api-key`, both `required=True`), and no retry-limit
option: `main` always invokes the programmatic `run` entry with its declared
default `max_attempts = 3`; the optional override with default 3 exists only
on `run`'s signature, not at the process boundary. -/
theorem claim_C8_entry_surface (a : CliArgs) (art0 : Option (List Char)) :
    cliRequired .target = true ∧ cliRequired .apiKey = true ∧
    mainMachine a art0 = initMachine a.target 3 art0 ∧
    (mainMachine a art0).st.max_attempts = 3 ∧
    runDefaultMaxAttempts = 3 :=
  ⟨rfl, rfl, rfl, rfl, rfl⟩

end AgentSpec
